import Mathlib

/-
Verification of the schema resolution and flattening engine of
tap-ms-graph (src/tap_ms_graph/schema.py) against its natural-language
specification.  The Python functions operate on JSON documents parsed by
jsonref; here JSON values are embedded as the inductive type JVal, with
objects carried as insertion-ordered association lists, mirroring Python
dicts.  Fallible Python code (exceptions) is embedded in the Except monad
over the PyErr type, which records the Python exception class.
-/

set_option maxRecDepth 4000

namespace TapMsGraph

/-- JSON values as produced by parsing a metadata document.  Objects keep
insertion order, mirroring Python dicts. -/
inductive JVal where
  | jnull
  | jbool (b : Bool)
  | jnum (n : Int)
  | jstr (s : String)
  | jarr (xs : List JVal)
  | jobj (kvs : List (String × JVal))

abbrev Dict := List (String × JVal)

/-- The Python exception classes that the code under verification can
raise.  LookupError is the base class of exactly keyError and indexError;
osError covers FileNotFoundError, valueError covers json.JSONDecodeError;
reError is re.error, raised by re.compile on an invalid pattern (also
raised in this model for patterns outside the supported re subset). -/
inductive PyErr where
  | keyError (k : String)
  | indexError (m : String)
  | valueError (m : String)
  | osError (m : String)
  | typeError (m : String)
  | attributeError (m : String)
  | reError (m : String)
deriving DecidableEq

/-- Whether an exception is of class LookupError (base class of KeyError
and IndexError only, in the Python class hierarchy). -/
def PyErr.isLookupErrorB : PyErr → Bool
  | .keyError _ => true
  | .indexError _ => true
  | _ => false

/-- Whether an exception is of class IndexError. -/
def PyErr.isIndexErrorB : PyErr → Bool
  | .indexError _ => true
  | _ => false

/-- First binding of a key in an association list, as in a Python dict. -/
def dlookup : Dict → String → Option JVal
  | [], _ => none
  | (k, v) :: rest, key => if k = key then some v else dlookup rest key

/-- Python dict.get(key, default). -/
def dgetD (d : Dict) (k : String) (dflt : JVal) : JVal :=
  match dlookup d k with
  | some v => v
  | none => dflt

/-- Python dict assignment d[key] = v: update in place if the key exists,
keeping its position, else append at the end. -/
def dset : Dict → String → JVal → Dict
  | [], key, v => [(key, v)]
  | (k, w) :: rest, key, v =>
    if k = key then (k, v) :: rest else (k, w) :: dset rest key v

/-- Python dict.pop(key, default), projected on the dict: the dict with
the key removed. -/
def derase : Dict → String → Dict
  | [], _ => []
  | (k, v) :: rest, key =>
    if k = key then derase rest key else (k, v) :: derase rest key

/-- Python dict merge of two dicts, as in the double-splat expression that
builds a fresh dict from a followed by b: entries of b are written over a,
later writes winning. -/
def dunion (a b : Dict) : Dict :=
  b.foldl (fun acc kv => dset acc kv.1 kv.2) a

/-- The field list of an object value, empty for non-objects. -/
def jobjFields : JVal → Dict
  | .jobj l => l
  | _ => []

/-- The element list of an array value, empty for non-arrays. -/
def jarrItems : JVal → List JVal
  | .jarr xs => xs
  | _ => []

def isObjB : JVal → Bool
  | .jobj _ => true
  | _ => false

/-- Python truthiness of a JSON value. -/
def jtruthy : JVal → Bool
  | .jnull => false
  | .jbool b => b
  | .jnum n => n != 0
  | .jstr s => !s.isEmpty
  | .jarr xs => !xs.isEmpty
  | .jobj l => !l.isEmpty

/-- A Python method call such as .get or .pop on an arbitrary value: only
dicts have these attributes, anything else raises AttributeError. -/
def asObj : JVal → Except PyErr Dict
  | .jobj l => .ok l
  | _ => .error (.attributeError "get")

/-- v.get(k, dflt) on an arbitrary value. -/
def jget (v : JVal) (k : String) (dflt : JVal) : Except PyErr JVal :=
  match v with
  | .jobj l => .ok (dgetD l k dflt)
  | _ => .error (.attributeError "get")

/-- Python iteration over a value: lists yield their elements, dicts their
keys, strings their characters; other values raise TypeError. -/
def pyIter : JVal → Except PyErr (List JVal)
  | .jarr xs => .ok xs
  | .jobj l => .ok (l.map fun kv => JVal.jstr kv.1)
  | .jstr s => .ok (s.toList.map fun c => JVal.jstr (String.mk [c]))
  | _ => .error (.typeError "not iterable")

/-- Split a character list at the first occurrence of c: the part before,
and (when c occurs) the part after. -/
def splitAtFirst (c : Char) : List Char → List Char × Option (List Char)
  | [] => ([], none)
  | x :: xs =>
    if x = c then ([], some xs)
    else
      let r := splitAtFirst c xs
      (x :: r.1, r.2)

/-- Characters allowed after the first character of a URL scheme. -/
def isSchemeTailChar (c : Char) : Bool :=
  c.isAlphanum || c = '+' || c = '-' || c = '.'

/-- Model of the scheme removal step of urllib.parse.urlsplit: when the
text before the first colon is a wellformed scheme (nonempty, leading
letter, then letters, digits, plus, minus, dot), drop it together with the
colon. -/
def dropScheme (cs : List Char) : List Char :=
  match splitAtFirst ':' cs with
  | (before, some after) =>
    match before with
    | [] => cs
    | b :: _ =>
      if b.isAlpha && before.all isSchemeTailChar then after else cs
  | (_, none) => cs

/-- Model of the netloc removal step of urllib.parse.urlsplit: when the
remainder starts with two slashes, the netloc extends to the next slash
and the path is what follows (query and fragment are already removed). -/
def netlocSplit (cs : List Char) : List Char :=
  match cs with
  | '/' :: '/' :: rest => rest.dropWhile (fun c => c ≠ '/')
  | _ => cs

/-- urlsplit(url).fragment: the text after the first hash, empty when the
url has no hash. -/
def urlsplitFragment (url : String) : String :=
  match splitAtFirst '#' url.toList with
  | (_, some frag) => String.mk frag
  | (_, none) => ""

/-- urlsplit(url).path: the url with fragment, query, scheme, and netloc
removed.  Model of urllib.parse.urlsplit restricted to the two fields the
code reads. -/
def urlsplitPath (url : String) : String :=
  let noFrag := (splitAtFirst '#' url.toList).1
  let noQuery := (splitAtFirst '?' noFrag).1
  String.mk (netlocSplit (dropScheme noQuery))

/-! A model of the Python re engine for the constructs a metadata pattern
can use: literals, escapes (including the classes d, D, s, S, w, W with
ASCII semantics, the anchors A, Z, b, B, and control and hex escapes),
the dot, character classes with ranges and negation, groups (plain and
non-capturing), alternation, the repeat operators star, plus, optional
and counted braces (with the Python fallback that an unparsable brace is
a literal), and non-greedy markers (which cannot change whether a match
exists).  Constructs outside this subset (lookarounds, backreferences,
named groups, flags) do not compile, and the code embedding surfaces
that as the re.error exception rather than as a silent non-match. -/

/-- One member of a character class. -/
inductive ClsItem where
  | chr (c : Char)
  | rng (a b : Char)
  | dcls
  | ndcls
  | scls
  | nscls
  | wcls
  | nwcls

/-- Regular expression ASTs. -/
inductive Rx where
  | eps
  | lit (c : Char)
  | anyc
  | bos
  | eos
  | eoa
  | wordB (neg : Bool)
  | cls (neg : Bool) (items : List ClsItem)
  | opt (r : Rx)
  | star (r : Rx)
  | alt (a b : Rx)
  | seq (a b : Rx)

/-- Python word characters, ASCII semantics. -/
def isWordChar (c : Char) : Bool := c.isAlphanum || c = '_'

/-- Python whitespace characters, ASCII semantics. -/
def isSpaceChar (c : Char) : Bool :=
  c = ' ' || c = '\t' || c = '\n' || c = '\x0d' || c = '\x0b' || c = '\x0c'

def clsItemMatch (c : Char) : ClsItem → Bool
  | .chr a => c = a
  | .rng a b => a ≤ c && c ≤ b
  | .dcls => c.isDigit
  | .ndcls => !c.isDigit
  | .scls => isSpaceChar c
  | .nscls => !isSpaceChar c
  | .wcls => isWordChar c
  | .nwcls => !isWordChar c

def classMatch (neg : Bool) (items : List ClsItem) (c : Char) : Bool :=
  (items.any (clsItemMatch c)) != neg

/-- Whether the position between the consumed prefix and the suffix s of
the full subject is a word boundary. -/
def boundaryAt (full s : List Char) : Bool :=
  let prevWord :=
    match full.length - s.length with
    | 0 => false
    | p + 1 =>
      match full.drop p with
      | c :: _ => isWordChar c
      | [] => false
  let nextWord :=
    match s with
    | c :: _ => isWordChar c
    | [] => false
  prevWord != nextWord

/-- The size of a pattern, used only to compute a sufficient fuel for
the matcher. -/
def rxMeasure : Rx → Nat
  | .opt r => rxMeasure r + 1
  | .star r => rxMeasure r + 1
  | .alt a b => rxMeasure a + rxMeasure b + 1
  | .seq a b => rxMeasure a + rxMeasure b + 1
  | _ => 1

/-- All suffixes of the subject left over after matching r against some
prefix of the suffix s; full is the whole subject (for the anchors and
boundaries).  Star iterations must consume at least one character (the
filter), which does not change which suffixes are reachable.  Every
recursive call decreases the pair of suffix length and pattern size
lexicographically and both stay bounded, so with the fuel rxMatch
supplies the zero-fuel equation is never reached. -/
def mrun (full : List Char) : Nat → Rx → List Char → List (List Char)
  | 0, _, _ => []
  | _ + 1, .eps, s => [s]
  | _ + 1, .lit _, [] => []
  | _ + 1, .lit c, x :: xs => if x = c then [xs] else []
  | _ + 1, .anyc, [] => []
  | _ + 1, .anyc, x :: xs => if x = '\n' then [] else [xs]
  | _ + 1, .cls _ _, [] => []
  | _ + 1, .cls neg items, x :: xs => if classMatch neg items x then [xs] else []
  | _ + 1, .bos, s => if s.length = full.length then [s] else []
  | _ + 1, .eos, s => if s.isEmpty || s = ['\n'] then [s] else []
  | _ + 1, .eoa, s => if s.isEmpty then [s] else []
  | _ + 1, .wordB neg, s => if boundaryAt full s != neg then [s] else []
  | fuel + 1, .opt r, s => mrun full fuel r s ++ [s]
  | fuel + 1, .alt a b, s => mrun full fuel a s ++ mrun full fuel b s
  | fuel + 1, .seq a b, s => (mrun full fuel a s).flatMap (mrun full fuel b)
  | fuel + 1, .star r, s =>
    s :: ((mrun full fuel r s).filter (fun t => t.length < s.length)).flatMap
      (mrun full fuel (.star r))

/-- re.compile(...).match(s) truthiness for a compiled pattern: anchored
at position 0, succeeding whenever some prefix of the subject matches (no
full-string match required). -/
def rxMatch (r : Rx) (s : String) : Bool :=
  !(mrun s.toList ((s.toList.length + 1) * (rxMeasure r + 1) + 1) r s.toList).isEmpty

def lbraceChar : Char := Char.ofNat 123

def rbraceChar : Char := Char.ofNat 125

/-- The value of one hex digit, via the code point: digits are 48-57,
lower case letters from 97, upper case from 65. -/
def hexVal (c : Char) : Option Nat :=
  let n := c.toNat
  if 48 ≤ n && n ≤ 57 then some (n - 48)
  else if 97 ≤ n && n ≤ 102 then some (n - 87)
  else if 65 ≤ n && n ≤ 70 then some (n - 55)
  else none

def spanDigits : List Char → List Char × List Char
  | [] => ([], [])
  | c :: cs =>
    if c.isDigit then
      let r := spanDigits cs
      (c :: r.1, r.2)
    else ([], c :: cs)

def natOfDigits (ds : List Char) : Nat :=
  ds.foldl (fun acc c => 10 * acc + (c.toNat - 48)) 0

/-- An escape inside a character class. -/
def escClsItem (c : Char) : Option ClsItem :=
  if c = 'd' then some .dcls
  else if c = 'D' then some .ndcls
  else if c = 's' then some .scls
  else if c = 'S' then some .nscls
  else if c = 'w' then some .wcls
  else if c = 'W' then some .nwcls
  else if c = 'n' then some (.chr '\n')
  else if c = 't' then some (.chr '\t')
  else if c = 'r' then some (.chr '\x0d')
  else if c = 'f' then some (.chr '\x0c')
  else if c = 'v' then some (.chr '\x0b')
  else if c = 'a' then some (.chr '\x07')
  else if c = 'b' then some (.chr '\x08')
  else if c = '0' then some (.chr '\x00')
  else if c.isAlphanum then none
  else some (.chr c)

/-- The items of a character class, from after the opening bracket (and
optional caret) to the closing bracket.  A closing bracket in first
position is a literal, a dash before the closing bracket is a literal,
and a descending range does not compile, as in Python.  Ranges with an
escaped endpoint are outside the modelled subset. -/
def parseClsItems : Bool → List Char → Option (List ClsItem × List Char)
  | first, ']' :: rest =>
    if first then
      match parseClsItems false rest with
      | some (items, r2) => some (.chr ']' :: items, r2)
      | none => none
    else some ([], rest)
  | _, '\\' :: c :: rest =>
    match escClsItem c with
    | none => none
    | some it =>
      match rest with
      | '-' :: d :: _ =>
        if d = ']' then
          match parseClsItems false rest with
          | some (items, r2) => some (it :: items, r2)
          | none => none
        else none
      | _ =>
        match parseClsItems false rest with
        | some (items, r2) => some (it :: items, r2)
        | none => none
  | _, c :: '-' :: d :: rest =>
    if d = ']' then some ([.chr c, .chr '-'], rest)
    else if d = '\\' then none
    else if c ≤ d then
      match parseClsItems false rest with
      | some (items, r2) => some (.rng c d :: items, r2)
      | none => none
    else none
  | _, c :: rest =>
    match parseClsItems false rest with
    | some (items, r2) => some (.chr c :: items, r2)
    | none => none
  | _, [] => none

def parseCls (cs : List Char) : Option (Rx × List Char) :=
  match cs with
  | '^' :: rest =>
    match parseClsItems true rest with
    | some (items, r2) => some (.cls true items, r2)
    | none => none
  | _ =>
    match parseClsItems true cs with
    | some (items, r2) => some (.cls false items, r2)
    | none => none

/-- An escaped atom outside a character class.  Unknown alphanumeric
escapes do not compile (as in Python for unknown letters; backreferences
are outside the modelled subset). -/
def escAtom (c : Char) (rest : List Char) : Option (Rx × List Char) :=
  if c = 'd' then some (.cls false [.dcls], rest)
  else if c = 'D' then some (.cls false [.ndcls], rest)
  else if c = 's' then some (.cls false [.scls], rest)
  else if c = 'S' then some (.cls false [.nscls], rest)
  else if c = 'w' then some (.cls false [.wcls], rest)
  else if c = 'W' then some (.cls false [.nwcls], rest)
  else if c = 'A' then some (.bos, rest)
  else if c = 'Z' then some (.eoa, rest)
  else if c = 'b' then some (.wordB false, rest)
  else if c = 'B' then some (.wordB true, rest)
  else if c = 'n' then some (.lit '\n', rest)
  else if c = 't' then some (.lit '\t', rest)
  else if c = 'r' then some (.lit '\x0d', rest)
  else if c = 'f' then some (.lit '\x0c', rest)
  else if c = 'v' then some (.lit '\x0b', rest)
  else if c = 'a' then some (.lit '\x07', rest)
  else if c = '0' then some (.lit '\x00', rest)
  else if c = 'x' then
    match rest with
    | h1 :: h2 :: r2 =>
      match hexVal h1, hexVal h2 with
      | some a, some b => some (.lit (Char.ofNat (16 * a + b)), r2)
      | _, _ => none
    | _ => none
  else if c.isAlphanum then none
  else some (.lit c, rest)

/-- The body of a counted repeat, from after the opening brace: digits,
an optional comma with optional digits, and the closing brace.  Returns
the minimum, the bound (none for an exact count, some none for
unbounded), and the rest; anything else is a literal brace, as in
Python. -/
def parseRep (cs : List Char) : Option (Nat × Option (Option Nat) × List Char) :=
  let p1 := spanDigits cs
  match p1.2 with
  | c :: r2 =>
    if c = rbraceChar then
      if p1.1.isEmpty then none else some (natOfDigits p1.1, none, r2)
    else if c = ',' then
      let p2 := spanDigits r2
      match p2.2 with
      | c2 :: r4 =>
        if c2 = rbraceChar then
          if p1.1.isEmpty && p2.1.isEmpty then none
          else some (natOfDigits p1.1, some (if p2.1.isEmpty then none
            else some (natOfDigits p2.1)), r4)
        else none
      | [] => none
    else none
  | [] => none

def powRx (r : Rx) : Nat → Rx
  | 0 => .eps
  | n + 1 => .seq r (powRx r n)

/-- A counted repeat, expanded: exactly m, at least m, or between m and
n (a descending pair does not compile, as in Python). -/
def repRx (a : Rx) (m : Nat) (bound : Option (Option Nat)) : Option Rx :=
  match bound with
  | none => some (powRx a m)
  | some none => some (.seq (powRx a m) (.star a))
  | some (some n) =>
    if m ≤ n then some (.seq (powRx a m) (powRx (.opt a) (n - m))) else none

/-- Drops a non-greedy marker, which cannot change whether a match
exists. -/
def dropNG : List Char → List Char
  | '?' :: rest => rest
  | rest => rest

/-- The repeat operator after an atom, if any.  A second repeat operator
is left in place for the caller to fail on ("multiple repeat" in
Python). -/
def applyPostfixOp (a : Rx) (rest : List Char) : Option (Rx × List Char) :=
  match rest with
  | '*' :: r2 => some (.star a, dropNG r2)
  | '+' :: r2 => some (.seq a (.star a), dropNG r2)
  | '?' :: r2 => some (.opt a, dropNG r2)
  | c :: r2 =>
    if c = lbraceChar then
      match parseRep r2 with
      | some (m, bound, r3) =>
        match repRx a m bound with
        | some r => some (r, dropNG r3)
        | none => none
      | none => some (a, rest)
    else some (a, rest)
  | [] => some (a, [])

mutual

/-- A full pattern at one nesting level: alternatives separated by
bars. -/
def parseAlt : Nat → List Char → Option (Rx × List Char)
  | 0, _ => none
  | fuel + 1, cs =>
    match parseSeq fuel cs with
    | some (r, '|' :: rest) =>
      match parseAlt fuel rest with
      | some (r2, rest2) => some (.alt r r2, rest2)
      | none => none
    | other => other

/-- A sequence of atoms with repeat operators, up to a bar, a closing
parenthesis, or the end. -/
def parseSeq : Nat → List Char → Option (Rx × List Char)
  | 0, _ => none
  | fuel + 1, cs =>
    match cs with
    | [] => some (.eps, [])
    | c :: _ =>
      if c = ')' || c = '|' then some (.eps, cs)
      else
        match parseAtom fuel cs with
        | none => none
        | some (a, rest) =>
          match applyPostfixOp a rest with
          | none => none
          | some (a2, rest2) =>
            match parseSeq fuel rest2 with
            | some (tail, rest3) => some (.seq a2 tail, rest3)
            | none => none

/-- One atom: an escape, a group (plain or non-capturing), an anchor,
the dot, a character class, or a literal.  A repeat operator with
nothing to repeat does not compile, as in Python. -/
def parseAtom : Nat → List Char → Option (Rx × List Char)
  | 0, _ => none
  | fuel + 1, cs =>
    match cs with
    | '\\' :: c :: rest => escAtom c rest
    | '\\' :: [] => none
    | '(' :: '?' :: ':' :: rest =>
      match parseAlt fuel rest with
      | some (r, ')' :: rest2) => some (r, rest2)
      | _ => none
    | '(' :: '?' :: _ => none
    | '(' :: rest =>
      match parseAlt fuel rest with
      | some (r, ')' :: rest2) => some (r, rest2)
      | _ => none
    | '^' :: rest => some (.bos, rest)
    | '$' :: rest => some (.eos, rest)
    | '.' :: rest => some (.anyc, rest)
    | '[' :: rest => parseCls rest
    | '*' :: _ => none
    | '+' :: _ => none
    | '?' :: _ => none
    | c :: rest => some (.lit c, rest)
    | [] => none

end

/-- re.compile on a pattern string: some compiled Rx, or none when the
pattern is invalid or outside the modelled subset. -/
def parseRxTop (pat : String) : Option Rx :=
  match parseAlt (4 * pat.length + 8) pat.toList with
  | some (r, []) => some r
  | _ => none

/-- What opening and json-parsing the metadata file of one version yields:
missing file (FileNotFoundError, an OSError), malformed document
(json.JSONDecodeError, a ValueError), or the jsonref-resolved document. -/
inductive SourceDoc where
  | missing
  | unparseable
  | doc (d : Dict)

abbrev Source := String → SourceDoc

/-- load_metadata, lines 15-23 of schema.py, as a pure value: open the
metadata file of the version and parse it with jsonref. -/
def load_metadata (src : Source) (version : String) : Except PyErr Dict :=
  match src version with
  | .missing => .error (.osError version)
  | .unparseable => .error (.valueError version)
  | .doc d => .ok d

abbrev Cache := List (String × Dict)

def cacheFind : Cache → String → Option Dict
  | [], _ => none
  | (k, d) :: rest, key => if k = key then some d else cacheFind rest key

/-- load_metadata under its memoization decorator: result, updated cache,
and whether the source was read.  The cache is keyed on the version,
unbounded, and exceptions are not cached. -/
def load_metadata_cached (src : Source) (cache : Cache) (version : String) :
    Except PyErr Dict × Cache × Bool :=
  match cacheFind cache version with
  | some d => (.ok d, cache, false)
  | none =>
    match src version with
    | .doc d => (.ok d, cache ++ [(version, d)], true)
    | .missing => (.error (.osError version), cache, true)
    | .unparseable => (.error (.valueError version), cache, true)

/-- The cache evolution over a whole sequence of load_metadata calls. -/
def runCalls (src : Source) : Cache → List String → Cache
  | cache, [] => cache
  | cache, v :: vs => runCalls src (load_metadata_cached src cache v).2.1 vs

/-- Splitting a character list on a separator character, with Python
str.split semantics for a nonempty separator: the empty input gives one
empty piece. -/
def splitChar (sep : Char) : List Char → List (List Char)
  | [] => [[]]
  | c :: cs =>
    if c = sep then [] :: splitChar sep cs
    else
      match splitChar sep cs with
      | r :: rs => (c :: r) :: rs
      | [] => [[c]]

/-- Python path.split on the slash character. -/
def pySplitSlash (s : String) : List String :=
  (splitChar '/' s.toList).map String.mk

/-- Python list indexing with literal index 1, as in path.split of
get_ref: raises IndexError when the list is too short. -/
def pyIndexOne : List String → Except PyErr String
  | _ :: x :: _ => .ok x
  | _ => .error (.indexError "list index out of range")

/-- Lines 28-30 of get_ref and 104-106 of get_type_schema: the version is
the second component of the split url path. -/
def urlVersion (context : String) : Except PyErr String :=
  pyIndexOne (pySplitSlash (urlsplitPath context))

/-- The loop body of get_ref, lines 32-40: for each candidate, compile
its declared pattern (re.compile raises re.error on failure) and return
the first candidate matching the comparison string; raise ValueError
carrying the context when none matches. -/
def refsLoop (context ctxStr : String) : List JVal → Except PyErr Dict
  | [] => .error (.valueError ("@odata.context not found: " ++ context))
  | c :: rest => do
    let cobj ← asObj c
    let propsV := dgetD cobj "properties" (.jobj [])
    let octxV ← jget propsV "@odata.context" (.jobj [])
    let patV ← jget octxV "pattern" (.jstr "")
    match patV with
    | .jstr pat =>
      match parseRxTop pat with
      | none => .error (.reError pat)
      | some r =>
        if rxMatch r ctxStr then .ok cobj else refsLoop context ctxStr rest
    | _ => .error (.typeError "compile expects a string")

/-- get_ref, lines 26-42 of schema.py. -/
def get_ref (src : Source) (context : String) : Except PyErr Dict := do
  let version ← urlVersion context
  let metadata ← load_metadata src version
  let refs ← pyIter (dgetD metadata "anyOf" (.jarr []))
  refsLoop context ("$metadata#" ++ urlsplitFragment context) refs

/-- The double-splat merge statement of _fix_schema_inheritance: read the
properties entry of the node (KeyError when absent) and merge the given
properties over it. -/
def mergeProps (schema : Dict) (props : JVal) : Except PyErr Dict :=
  match dlookup schema "properties" with
  | none => .error (.keyError "properties")
  | some pv =>
    match pv, props with
    | .jobj a, .jobj b => .ok (dset schema "properties" (.jobj (dunion a b)))
    | _, _ => .error (.typeError "mapping expected")

/-- Lines 58-64 of _fix_schema_inheritance: merge the properties of every
item of one inner composition list into the node, unconditionally. -/
def mergeItems (schema : Dict) : List JVal → Except PyErr Dict
  | [] => .ok schema
  | itemV :: rest => do
    let item ← asObj itemV
    let schema2 ← mergeProps schema (dgetD item "properties" (.jobj []))
    mergeItems schema2 rest

/-- One inner composition key of one nested schema. -/
def fixInner (schema : Dict) (elem : Dict) (k : String) : Except PyErr Dict := do
  let items ← pyIter (dgetD elem k (.jarr []))
  mergeItems schema items

/-- Lines 53-55 of _fix_schema_inheritance: the conditional merge of the
properties of one nested schema, executed only when they are truthy. -/
def fixPropsMerge (schema : Dict) (props : JVal) : Except PyErr Dict :=
  if jtruthy props then mergeProps schema props else .ok schema

/-- Lines 52-64 of _fix_schema_inheritance: one nested schema of a
composition list; merge its properties when nonempty, then every inner
composition list. -/
def fixElem (schema : Dict) (elemV : JVal) : Except PyErr Dict := do
  let elem ← asObj elemV
  let schema1 ← fixPropsMerge schema (dgetD elem "properties" (.jobj []))
  let schema2 ← fixInner schema1 elem "allOf"
  let schema3 ← fixInner schema2 elem "anyOf"
  fixInner schema3 elem "oneOf"

def fixElems (schema : Dict) : List JVal → Except PyErr Dict
  | [] => .ok schema
  | e :: es => do
    let schema1 ← fixElem schema e
    fixElems schema1 es

/-- Lines 48-64 of _fix_schema_inheritance: pop one composition key and,
when its value is truthy, iterate and process its nested schemas. -/
def fixKey (schema : Dict) (k : String) : Except PyErr Dict :=
  if jtruthy (dgetD schema k (.jarr [])) then do
    let elems ← pyIter (dgetD schema k (.jarr []))
    fixElems (derase schema k) elems
  else .ok (derase schema k)

/-- _fix_schema_inheritance, lines 45-65 of schema.py (Pass A). -/
def fix_schema_inheritance (schemaV : JVal) : Except PyErr Dict := do
  let schema ← asObj schemaV
  let s1 ← fixKey schema "allOf"
  let s2 ← fixKey s1 "anyOf"
  fixKey s2 "oneOf"

/-- The fixed replacement node of Pass B. -/
def replacementNode : JVal := .jobj [("type", .jarr [.jstr "string", .jstr "null"])]

/-- Lines 76-81 of _convert_complex_types_to_string: whether one field
schema has structural type or carries a composition key.  Python reads the
keys of the field value first, so non-dict field values raise
AttributeError. -/
def isComplexField (v : JVal) : Except PyErr Bool :=
  match v with
  | .jobj f =>
    let hasOf := f.any fun kv => kv.1 = "allOf" || kv.1 = "anyOf" || kv.1 = "oneOf"
    let hasStruct :=
      match dgetD f "type" (.jobj []) with
      | .jstr s => s = "array" || s = "object"
      | _ => false
    .ok (hasStruct || hasOf)
  | _ => .error (.attributeError "keys")

/-- The field loop of _convert_complex_types_to_string, lines 75-82:
newProps starts as a copy of the properties and complex fields are
overwritten with the replacement node. -/
def convFields (newProps : Dict) : List (String × JVal) → Except PyErr Dict
  | [] => .ok newProps
  | (name, v) :: rest => do
    let cplx ← isComplexField v
    convFields (if cplx then dset newProps name replacementNode else newProps) rest

/-- _convert_complex_types_to_string, lines 68-84 of schema.py (Pass B). -/
def convert_complex_types_to_string (schemaV : JVal) : Except PyErr Dict := do
  let schema ← asObj schemaV
  let props ← asObj (dgetD schema "properties" (.jobj []))
  let newProps ← convFields props props
  .ok [("type", .jstr "object"), ("properties", .jobj newProps)]

/-- Python subscript v[0], as in the allOf fallback of get_schema. -/
def pyIndexZero : JVal → Except PyErr JVal
  | .jarr [] => .error (.indexError "list index out of range")
  | .jarr (x :: _) => .ok x
  | .jstr s =>
    match s.toList with
    | [] => .error (.indexError "string index out of range")
    | c :: _ => .ok (.jstr (String.mk [c]))
  | .jobj _ => .error (.keyError "0")
  | _ => .error (.typeError "not subscriptable")

/-- Lines 90-92 of get_schema: take the value.items subschema when truthy,
else the head of the allOf list. -/
def selectNode (ref : Dict) : Except PyErr JVal := do
  let valueV ← jget (dgetD ref "properties" (.jobj [])) "value" (.jobj [])
  let items ← jget valueV "items" (.jobj [])
  if jtruthy items then .ok items
  else pyIndexZero (dgetD ref "allOf" (.jarr []))

/-- Lines 95-96 of get_schema: Pass A followed by Pass B. -/
def flattenNode (v : JVal) : Except PyErr Dict := do
  let fixed ← fix_schema_inheritance v
  convert_complex_types_to_string (.jobj fixed)

/-- get_schema, lines 87-99 of schema.py. -/
def get_schema (src : Source) (context : String) : Except PyErr Dict := do
  let ref ← get_ref src context
  let node ← selectNode ref
  flattenNode node

/-- Python str.lstrip with the hash character: removes every leading
occurrence, not only one. -/
def pyLstripHash (s : String) : String :=
  String.mk (s.toList.dropWhile (fun c => c = '#'))

/-- get_type_schema, lines 102-113 of schema.py. -/
def get_type_schema (src : Source) (odata_context odata_type : String) :
    Except PyErr Dict := do
  let version ← urlVersion odata_context
  let metadata ← load_metadata src version
  let fullV ← jget (dgetD metadata "definitions" (.jobj [])) (pyLstripHash odata_type) (.jobj [])
  convert_complex_types_to_string fullV

/-! Basic lemmas about the Except monad and the dict operations. -/

@[simp] theorem except_bind_ok {α β : Type} (a : α) (f : α → Except PyErr β) :
    (Except.ok a >>= f) = f a := rfl

@[simp] theorem except_bind_err {α β : Type} (e : PyErr) (f : α → Except PyErr β) :
    ((Except.error e : Except PyErr α) >>= f) = .error e := rfl

@[simp] theorem except_pure_eq {α : Type} (a : α) :
    (pure a : Except PyErr α) = .ok a := rfl

theorem dlookup_dset_self (d : Dict) (k : String) (v : JVal) :
    dlookup (dset d k v) k = some v := by
  induction d with
  | nil => simp [dset, dlookup]
  | cons kv rest ih =>
    obtain ⟨k1, v1⟩ := kv
    by_cases h : k1 = k <;> simp [dset, dlookup, h, ih]

theorem dlookup_dset_ne (d : Dict) {k k' : String} (v : JVal) (h : k ≠ k') :
    dlookup (dset d k v) k' = dlookup d k' := by
  induction d with
  | nil => simp [dset, dlookup, h]
  | cons kv rest ih =>
    obtain ⟨k1, v1⟩ := kv
    by_cases h1 : k1 = k
    · subst h1
      simp [dset, dlookup, h]
    · simp [dset, dlookup, h1, ih]

theorem dset_dset_same (d : Dict) (k : String) (v w : JVal) :
    dset (dset d k v) k w = dset d k w := by
  induction d with
  | nil => simp [dset]
  | cons kv rest ih =>
    obtain ⟨k1, v1⟩ := kv
    by_cases h : k1 = k <;> simp [dset, h, ih]

theorem dset_self (d : Dict) {k : String} {v : JVal} (h : dlookup d k = some v) :
    dset d k v = d := by
  induction d with
  | nil => simp [dlookup] at h
  | cons kv rest ih =>
    obtain ⟨k1, v1⟩ := kv
    by_cases h1 : k1 = k
    · subst h1
      simp [dlookup] at h
      simp [dset, h]
    · simp [dlookup, h1] at h
      simp [dset, h1, ih h]

theorem derase_dset_ne (d : Dict) {k k' : String} (v : JVal) (h : k ≠ k') :
    derase (dset d k v) k' = dset (derase d k') k v := by
  induction d with
  | nil => simp [dset, derase, h]
  | cons kv rest ih =>
    obtain ⟨k1, v1⟩ := kv
    by_cases h1 : k1 = k
    · subst h1
      simp [dset, derase, h, ih]
    · by_cases h2 : k1 = k'
      · subst h2
        simp [dset, derase, h1, ih]
      · simp [dset, derase, h1, h2, ih]

theorem dlookup_derase_ne (d : Dict) {k k' : String} (h : k ≠ k') :
    dlookup (derase d k) k' = dlookup d k' := by
  induction d with
  | nil => simp [derase]
  | cons kv rest ih =>
    obtain ⟨k1, v1⟩ := kv
    by_cases h1 : k1 = k
    · subst h1
      simp [derase, dlookup, h, ih]
    · simp [derase, dlookup, h1, ih]

theorem dgetD_dset_ne (d : Dict) {k k' : String} (v dflt : JVal) (h : k ≠ k') :
    dgetD (dset d k v) k' dflt = dgetD d k' dflt := by
  simp [dgetD, dlookup_dset_ne d v h]

theorem dgetD_derase_ne (d : Dict) {k k' : String} (dflt : JVal) (h : k ≠ k') :
    dgetD (derase d k) k' dflt = dgetD d k' dflt := by
  simp [dgetD, dlookup_derase_ne d h]

theorem dlookup_append (a b : Dict) (k : String) :
    dlookup (a ++ b) k =
      match dlookup a k with
      | some v => some v
      | none => dlookup b k := by
  induction a with
  | nil => simp [dlookup]
  | cons kv rest ih =>
    obtain ⟨k1, v1⟩ := kv
    by_cases h : k1 = k <;> simp [dlookup, h, ih]

theorem dset_append_head (pre rest : Dict) {k : String} (v w : JVal)
    (h : dlookup pre k = none) :
    dset (pre ++ (k, v) :: rest) k w = pre ++ (k, w) :: rest := by
  induction pre with
  | nil => simp [dset]
  | cons kv pre' ih =>
    obtain ⟨k1, v1⟩ := kv
    by_cases h1 : k1 = k
    · simp [dlookup, h1] at h
    · simp [dlookup, h1] at h
      simp [dset, h1, ih h]

@[simp] theorem dunion_nil (a : Dict) : dunion a [] = a := rfl

theorem dunion_cons (a : Dict) (k : String) (v : JVal) (b : Dict) :
    dunion a ((k, v) :: b) = dunion (dset a k v) b := rfl

theorem cacheFind_append_some (a b : Cache) {v : String} {d : Dict}
    (h : cacheFind a v = some d) :
    cacheFind (a ++ b) v = some d := by
  induction a with
  | nil => simp [cacheFind] at h
  | cons kv rest ih =>
    obtain ⟨k1, d1⟩ := kv
    by_cases h1 : k1 = v
    · simp [cacheFind, h1] at h ⊢
      exact h
    · simp [cacheFind, h1] at h ⊢
      exact ih h

theorem cacheFind_append_none (a : Cache) {v : String} (d : Dict)
    (h : cacheFind a v = none) :
    cacheFind (a ++ [(v, d)]) v = some d := by
  induction a with
  | nil => simp [cacheFind]
  | cons kv rest ih =>
    obtain ⟨k1, d1⟩ := kv
    by_cases h1 : k1 = v
    · simp [cacheFind, h1] at h
    · simp [cacheFind, h1] at h ⊢
      exact ih h

/-! Spec-side definitions: declarative descriptions of the behaviour the
spec claims, to be compared with the code embedding above. -/

/-- The three composition keys, in the order the code processes them. -/
def ofKeys : List String := ["allOf", "anyOf", "oneOf"]

/-- Spec-side complexity test of one field schema: declared type array or
object, or any composition key present (false on non-objects, where the
code raises instead). -/
def complexB (v : JVal) : Bool :=
  match v with
  | .jobj f =>
    (match dgetD f "type" (.jobj []) with
     | .jstr s => s = "array" || s = "object"
     | _ => false) ||
      (f.any fun kv => kv.1 = "allOf" || kv.1 = "anyOf" || kv.1 = "oneOf")
  | _ => false

/-- Spec-side Pass B field rule: complex fields become the fixed
replacement node, all others are unchanged. -/
def convRule (v : JVal) : JVal := if complexB v then replacementNode else v

/-- A resolved metadata document with one definitions entry. -/
def docA : Dict :=
  [("definitions", .jobj
    [("a", .jobj [("properties", .jobj [("x", .jobj [("type", .jstr "object")])])])])]

def srcA : Source := fun v => if v = "v1.0" then .doc docA else .missing

def srcMissing : Source := fun _ => .missing

def srcBad : Source := fun _ => .unparseable

/-! ## C7 — error classes of load_metadata -/

/-- C7 counterexample: the claim says load_metadata fails with a
LookupError-class error when the source is missing or unparseable; in fact
a missing source raises FileNotFoundError (OSError-class) and an
unparseable one raises json.JSONDecodeError (ValueError-class), and
neither class is LookupError. -/
theorem claim7_counterexample :
    load_metadata srcMissing "v1.0" = .error (.osError "v1.0") ∧
    (PyErr.osError "v1.0").isLookupErrorB = false ∧
    load_metadata srcBad "v1.0" = .error (.valueError "v1.0") ∧
    (PyErr.valueError "v1.0").isLookupErrorB = false :=
  ⟨rfl, rfl, rfl, rfl⟩

/-- C7 (amended): for every version whose metadata source does not exist,
load_metadata fails with an OSError-class error; for every version whose
source cannot be parsed, it fails with a ValueError-class error; no error
it raises is LookupError-class. -/
theorem claim7_theorem (src : Source) (version : String) :
    (src version = .missing →
      load_metadata src version = .error (.osError version)) ∧
    (src version = .unparseable →
      load_metadata src version = .error (.valueError version)) ∧
    (∀ e, load_metadata src version = .error e → e.isLookupErrorB = false) := by
  refine ⟨fun h => by simp [load_metadata, h], fun h => by simp [load_metadata, h], ?_⟩
  intro e he
  unfold load_metadata at he
  cases h : src version <;> rw [h] at he
  case missing =>
    injection he with h2
    subst h2
    rfl
  case unparseable =>
    injection he with h2
    subst h2
    rfl
  case doc d => exact Except.noConfusion he

/-- C7 witness: the amended theorem applied to a concrete missing
source. -/
theorem claim7_witness :
    srcMissing "v2" = .missing ∧
    load_metadata srcMissing "v2" = .error (.osError "v2") :=
  ⟨rfl, (claim7_theorem srcMissing "v2").1 rfl⟩

/-! ## C9 — memoization of load_metadata -/

theorem cacheFind_runCalls (src : Source) {v : String} {d : Dict} :
    ∀ (vs : List String) (c : Cache), cacheFind c v = some d →
      cacheFind (runCalls src c vs) v = some d := by
  intro vs
  induction vs with
  | nil => intro c h; simpa [runCalls] using h
  | cons w ws ih =>
    intro c h
    have hstep : cacheFind (load_metadata_cached src c w).2.1 v = some d := by
      unfold load_metadata_cached
      cases hc : cacheFind c w with
      | some d0 => simpa using h
      | none =>
        cases hs : src w with
        | doc dw => simpa using cacheFind_append_some c [(w, dw)] h
        | missing => simpa using h
        | unparseable => simpa using h
    simpa [runCalls] using ih _ hstep

/-- C9: when a call of the memoized load_metadata for version v returns a
document d, the cache afterwards maps v to d, a second call for v returns
the same document without reading the source, and the cache entry
survives any further sequence of calls (never evicted or invalidated). -/
theorem claim9_theorem (src : Source) (cache : Cache) (v : String) (d : Dict)
    (c1 : Cache) (r : Bool)
    (h : load_metadata_cached src cache v = (.ok d, c1, r)) :
    cacheFind c1 v = some d ∧
    load_metadata_cached src c1 v = (.ok d, c1, false) ∧
    ∀ vs, cacheFind (runCalls src c1 vs) v = some d := by
  have hfind : cacheFind c1 v = some d := by
    unfold load_metadata_cached at h
    cases hc : cacheFind cache v with
    | some d0 =>
      rw [hc] at h
      simp only [Prod.mk.injEq, Except.ok.injEq] at h
      obtain ⟨h1, h2, -⟩ := h
      rw [← h2, hc, h1]
    | none =>
      rw [hc] at h
      cases hs : src v <;> rw [hs] at h <;>
        simp only [Prod.mk.injEq] at h
      case missing => exact Except.noConfusion h.1
      case unparseable => exact Except.noConfusion h.1
      case doc dw =>
        obtain ⟨h1, h2, -⟩ := h
        injection h1 with h1
        rw [← h2, ← h1]
        exact cacheFind_append_none cache dw hc
  refine ⟨hfind, ?_, fun vs => cacheFind_runCalls src vs c1 hfind⟩
  unfold load_metadata_cached
  rw [hfind]

/-- C9 witness: a fresh cache, one load, then the memoized second load. -/
theorem claim9_witness :
    load_metadata_cached srcA [] "v1.0" = (.ok docA, [("v1.0", docA)], true) ∧
    load_metadata_cached srcA [("v1.0", docA)] "v1.0" =
      (.ok docA, [("v1.0", docA)], false) :=
  ⟨rfl, (claim9_theorem srcA [] "v1.0" docA [("v1.0", docA)] true rfl).2.1⟩

/-! ## C5 — get_type_schema -/

/-- C5 counterexample: with definitions containing only the name a, the
claim predicts that "##a" is stripped to "#a", found absent, and that the
empty schema is returned; the code strips every leading hash, finds a,
and flattens it.  For an absent name ("#b" stripped to "b") the claim
predicts the bare empty schema, while the code returns the Pass B reshape
of the empty schema, which is not empty. -/
theorem claim5_counterexample :
    get_type_schema srcA "https://h/v1.0/x" "##a" =
      .ok [("type", .jstr "object"),
           ("properties", .jobj [("x", replacementNode)])] ∧
    get_type_schema srcA "https://h/v1.0/x" "#b" =
      .ok [("type", .jstr "object"), ("properties", .jobj [])] ∧
    get_type_schema srcA "https://h/v1.0/x" "#b" ≠ .ok [] := by
  refine ⟨rfl, rfl, fun h => ?_⟩
  rw [show get_type_schema srcA "https://h/v1.0/x" "#b" =
      .ok [("type", .jstr "object"), ("properties", .jobj [])] from rfl] at h
  injection h with h2
  exact List.cons_ne_nil _ _ h2

/-- C5 (amended): get_type_schema strips every leading hash character
from the type name (not only one), looks the result up in the definitions
mapping of the loaded document with the empty schema as default, and
applies Pass B to whatever was found; when the name is absent the result
is therefore the Pass B output on the empty schema, an object schema with
empty properties, rather than the bare empty schema. -/
theorem claim5_theorem (src : Source) (ctx tn p0 version : String)
    (rest : List String) (metadata defs : Dict)
    (hsplit : pySplitSlash (urlsplitPath ctx) = p0 :: version :: rest)
    (hload : load_metadata src version = .ok metadata)
    (hdefs : dgetD metadata "definitions" (.jobj []) = .jobj defs) :
    get_type_schema src ctx tn =
      convert_complex_types_to_string (dgetD defs (pyLstripHash tn) (.jobj [])) ∧
    (dlookup defs (pyLstripHash tn) = none →
      get_type_schema src ctx tn =
        .ok [("type", .jstr "object"), ("properties", .jobj [])]) := by
  have h1 : get_type_schema src ctx tn =
      convert_complex_types_to_string (dgetD defs (pyLstripHash tn) (.jobj [])) := by
    unfold get_type_schema urlVersion
    rw [hsplit]
    simp [pyIndexOne, hload, hdefs, jget]
  refine ⟨h1, fun habs => ?_⟩
  rw [h1, show dgetD defs (pyLstripHash tn) (.jobj []) = .jobj [] by
    simp [dgetD, habs]]
  rfl

/-- C5 witness: the amended theorem applied to the concrete document. -/
theorem claim5_witness :
    pySplitSlash (urlsplitPath "https://h/v1.0/x") = ["", "v1.0", "x"] ∧
    load_metadata srcA "v1.0" = .ok docA ∧
    dgetD docA "definitions" (.jobj []) =
      .jobj [("a", .jobj [("properties", .jobj [("x", .jobj [("type", .jstr "object")])])])] ∧
    get_type_schema srcA "https://h/v1.0/x" "#b" =
      .ok [("type", .jstr "object"), ("properties", .jobj [])] :=
  ⟨rfl, rfl, rfl,
    (claim5_theorem srcA "https://h/v1.0/x" "#b" "" "v1.0" ["x"] docA
      [("a", .jobj [("properties", .jobj [("x", .jobj [("type", .jstr "object")])])])]
      rfl rfl rfl).2 rfl⟩

/-! ## C1 — the spec scenario for get_schema -/

/-- The pattern of the single candidate of the C1 scenario. -/
def c1Pattern : String := "^\\$metadata#users(/\\$entity)?$"

/-- The items node of the C1 scenario: only an allOf list, no properties
key. -/
def c1Items : JVal :=
  .jobj [("allOf", .jarr [.jobj [("properties", .jobj
    [("id", .jobj [("type", .jstr "string")]),
     ("manager", .jobj [("type", .jstr "object")])])]])]

/-- The single candidate of the C1 scenario document. -/
def c1Cand : JVal :=
  .jobj
    [("properties", .jobj
      [("@odata.context", .jobj [("pattern", .jstr c1Pattern)]),
       ("value", .jobj [("items", c1Items)])])]

/-- The C1 scenario document, exactly as the claim describes it. -/
def c1Doc : Dict := [("anyOf", .jarr [c1Cand])]

def c1Src : Source := fun v => if v = "v1.0" then .doc c1Doc else .missing

/-- The single candidate of the repaired C1 scenario document: the items
node additionally carries a (here empty) properties key, so the Pass A
merge has a map to merge into. -/
def c1CandFixed : JVal :=
  .jobj
    [("properties", .jobj
      [("@odata.context", .jobj [("pattern", .jstr c1Pattern)]),
       ("value", .jobj [("items", .jobj
         [("properties", .jobj []),
          ("allOf", .jarr [.jobj [("properties", .jobj
            [("id", .jobj [("type", .jstr "string")]),
             ("manager", .jobj [("type", .jstr "object")])])]])])])])]

/-- The C1 scenario document with the one repair that makes the claimed
output reachable. -/
def c1DocFixed : Dict := [("anyOf", .jarr [c1CandFixed])]

def c1SrcFixed : Source := fun v => if v = "v1.0" then .doc c1DocFixed else .missing

/-- C1 counterexample: on the document exactly as the claim describes it,
get_schema does not return the flattened schema; Pass A reads the absent
properties key of the selected items node and raises KeyError. -/
theorem claim1_counterexample :
    get_schema c1Src "https://host/v1.0/$metadata#users" =
      .error (.keyError "properties") := rfl

/-- C1 (amended): on the scenario document whose items node additionally
carries a properties key (here empty), get_schema returns exactly the
claimed flattened schema: id kept as a string, manager coerced to the
nullable opaque scalar. -/
theorem claim1_theorem :
    get_schema c1SrcFixed "https://host/v1.0/$metadata#users" =
      .ok [("type", .jstr "object"),
           ("properties", .jobj
             [("id", .jobj [("type", .jstr "string")]),
              ("manager", .jobj [("type", .jarr [.jstr "string", .jstr "null"])])])] := rfl

/-! ## C2 and C8 — Pass B characterization and idempotence -/

theorem isComplexField_obj (f : Dict) :
    isComplexField (.jobj f) = .ok (complexB (.jobj f)) := rfl

theorem convFields_map : ∀ (l pre : Dict),
    (∀ p ∈ l, isObjB p.2 = true) →
    (l.map Prod.fst).Nodup →
    (∀ p ∈ l, dlookup pre p.1 = none) →
    convFields (pre ++ l) l = .ok (pre ++ l.map fun p => (p.1, convRule p.2)) := by
  intro l
  induction l with
  | nil =>
    intro pre _ _ _
    simp [convFields]
  | cons p rest ih =>
    intro pre hvals hnd hdisj
    obtain ⟨n, v⟩ := p
    have hv : isObjB v = true := hvals (n, v) (List.mem_cons_self _ _)
    obtain ⟨f, rfl⟩ : ∃ f, v = .jobj f := by
      cases v <;> simp [isObjB] at hv ⊢
    rw [List.map_cons] at hnd
    have hn : n ∉ rest.map Prod.fst := (List.nodup_cons.mp hnd).1
    have hnd2 : (rest.map Prod.fst).Nodup := (List.nodup_cons.mp hnd).2
    have hpre : dlookup pre n = none := hdisj (n, .jobj f) (List.mem_cons_self _ _)
    have hvals2 : ∀ p ∈ rest, isObjB p.2 = true :=
      fun p hp => hvals p (List.mem_cons_of_mem _ hp)
    have step : ∀ w : JVal,
        ∀ p ∈ rest, dlookup (pre ++ [(n, w)]) p.1 = none := by
      intro w p hp
      have hne : ¬n = p.1 := by
        intro hEq
        exact hn (hEq ▸ List.mem_map_of_mem Prod.fst hp)
      rw [dlookup_append, hdisj p (List.mem_cons_of_mem _ hp)]
      simp [dlookup, hne]
    simp only [convFields, isComplexField_obj, except_bind_ok]
    by_cases hc : complexB (.jobj f)
    · rw [if_pos hc]
      rw [dset_append_head pre rest _ replacementNode hpre]
      have hacc : pre ++ (n, replacementNode) :: rest =
          (pre ++ [(n, replacementNode)]) ++ rest := by simp
      rw [hacc, ih (pre ++ [(n, replacementNode)]) hvals2 hnd2 (step replacementNode)]
      simp [convRule, hc]
    · rw [if_neg hc]
      have hacc : pre ++ (n, JVal.jobj f) :: rest =
          (pre ++ [(n, JVal.jobj f)]) ++ rest := by simp
      rw [hacc, ih (pre ++ [(n, JVal.jobj f)]) hvals2 hnd2 (step (JVal.jobj f))]
      simp [convRule, hc]

theorem convert_char (s props : Dict)
    (hp : dgetD s "properties" (.jobj []) = .jobj props)
    (hvals : ∀ p ∈ props, isObjB p.2 = true)
    (hnd : (props.map Prod.fst).Nodup) :
    convert_complex_types_to_string (.jobj s) =
      .ok [("type", .jstr "object"),
           ("properties", .jobj (props.map fun p => (p.1, convRule p.2)))] := by
  unfold convert_complex_types_to_string
  rw [show asObj (.jobj s) = .ok s from rfl, except_bind_ok, hp,
    show asObj (.jobj props) = .ok props from rfl, except_bind_ok]
  have hcf := convFields_map props [] hvals hnd (by intro p _; simp [dlookup])
  simp only [List.nil_append] at hcf
  rw [hcf, except_bind_ok]

/-- C2: Pass B replaces exactly the fields whose own schema declares type
array or object or carries a composition key with the fixed node
(type [string, null]); every other field schema is kept unchanged; and the
output is always reshaped to an object schema over the new map, with no
condition on the type of the input node. -/
theorem claim2_theorem (s props : Dict)
    (hp : dgetD s "properties" (.jobj []) = .jobj props)
    (hvals : ∀ p ∈ props, isObjB p.2 = true)
    (hnd : (props.map Prod.fst).Nodup) :
    convert_complex_types_to_string (.jobj s) =
      .ok [("type", .jstr "object"),
           ("properties", .jobj (props.map fun p =>
             (p.1, if complexB p.2 then replacementNode else p.2)))] := by
  simpa [convRule] using convert_char s props hp hvals hnd

/-- C2 witness: a node with a scalar field, a structural field, and a
compositional field, and an original type that is not object. -/
theorem claim2_witness :
    dgetD [("type", .jstr "banana"),
           ("properties", .jobj
             [("id", .jobj [("type", .jstr "string")]),
              ("m", .jobj [("type", .jstr "object")]),
              ("c", .jobj [("anyOf", .jarr [])])])] "properties" (.jobj []) =
      .jobj [("id", .jobj [("type", .jstr "string")]),
             ("m", .jobj [("type", .jstr "object")]),
             ("c", .jobj [("anyOf", .jarr [])])] ∧
    convert_complex_types_to_string (.jobj
      [("type", .jstr "banana"),
       ("properties", .jobj
         [("id", .jobj [("type", .jstr "string")]),
          ("m", .jobj [("type", .jstr "object")]),
          ("c", .jobj [("anyOf", .jarr [])])])]) =
      .ok [("type", .jstr "object"),
           ("properties", .jobj
             [("id", .jobj [("type", .jstr "string")]),
              ("m", replacementNode),
              ("c", replacementNode)])] := by
  constructor
  · rfl
  · have h := claim2_theorem
      [("type", .jstr "banana"),
       ("properties", .jobj
         [("id", .jobj [("type", .jstr "string")]),
          ("m", .jobj [("type", .jstr "object")]),
          ("c", .jobj [("anyOf", .jarr [])])])]
      [("id", .jobj [("type", .jstr "string")]),
       ("m", .jobj [("type", .jstr "object")]),
       ("c", .jobj [("anyOf", .jarr [])])]
      rfl (by decide) (by decide)
    simpa using h

theorem complexB_replacement : complexB replacementNode = false := rfl

theorem convRule_convRule (v : JVal) : convRule (convRule v) = convRule v := by
  unfold convRule
  by_cases h : complexB v <;> simp [h, complexB_replacement]

theorem isObjB_convRule (v : JVal) (h : isObjB v = true) :
    isObjB (convRule v) = true := by
  unfold convRule
  by_cases hc : complexB v
  · rw [if_pos hc]
    rfl
  · rw [if_neg hc]
    exact h

/-- C8: Pass B is idempotent on every schema node of the data model
(properties values are objects with unique keys): applying the
structural-to-scalar coercion twice equals applying it once. -/
theorem claim8_theorem (s props : Dict)
    (hp : dgetD s "properties" (.jobj []) = .jobj props)
    (hvals : ∀ p ∈ props, isObjB p.2 = true)
    (hnd : (props.map Prod.fst).Nodup) :
    (convert_complex_types_to_string (.jobj s) >>= fun t =>
      convert_complex_types_to_string (.jobj t)) =
      convert_complex_types_to_string (.jobj s) := by
  rw [convert_char s props hp hvals hnd, except_bind_ok]
  have hp2 : dgetD [("type", JVal.jstr "object"),
      ("properties", JVal.jobj (props.map fun p => (p.1, convRule p.2)))]
      "properties" (.jobj []) = .jobj (props.map fun p => (p.1, convRule p.2)) := by
    simp [dgetD, dlookup]
  have hvals2 : ∀ p ∈ props.map fun p => (p.1, convRule p.2), isObjB p.2 = true := by
    intro p hp3
    obtain ⟨q, hq, rfl⟩ := List.mem_map.mp hp3
    exact isObjB_convRule q.2 (hvals q hq)
  have hnd2 : ((props.map fun p => (p.1, convRule p.2)).map Prod.fst).Nodup := by
    rw [List.map_map]
    simpa [Function.comp] using hnd
  rw [convert_char _ _ hp2 hvals2 hnd2, List.map_map]
  have hmm : (props.map ((fun p => (p.1, convRule p.2)) ∘ fun p => (p.1, convRule p.2))) =
      props.map fun p => (p.1, convRule p.2) := by
    apply List.map_congr_left
    intro p _
    simp [Function.comp, convRule_convRule]
  rw [hmm]

/-- C8 witness: the idempotence theorem applied to a concrete node with a
structural field. -/
theorem claim8_witness :
    dgetD [("properties", .jobj [("m", .jobj [("type", .jstr "object")])])]
      "properties" (.jobj []) = .jobj [("m", .jobj [("type", .jstr "object")])] ∧
    (convert_complex_types_to_string
        (.jobj [("properties", .jobj [("m", .jobj [("type", .jstr "object")])])]) >>=
      fun t => convert_complex_types_to_string (.jobj t)) =
      convert_complex_types_to_string
        (.jobj [("properties", .jobj [("m", .jobj [("type", .jstr "object")])])]) :=
  ⟨rfl, claim8_theorem _ [("m", .jobj [("type", .jstr "object")])] rfl
    (by decide) (by decide)⟩

/-! ## C4 — get_ref pattern search -/

theorem bind_error_cases {α β : Type} {m : Except PyErr α} {f : α → Except PyErr β}
    {e : PyErr} (h : (m >>= f) = .error e) :
    m = .error e ∨ ∃ a, m = .ok a ∧ f a = .error e := by
  cases m with
  | error e2 =>
    left
    rw [except_bind_err] at h
    injection h with h2
    rw [h2]
  | ok a =>
    right
    rw [except_bind_ok] at h
    exact ⟨a, rfl, h⟩

theorem asObj_error {v : JVal} {e : PyErr} (h : asObj v = .error e) :
    e.isIndexErrorB = false := by
  cases v
  case jobj l => exact Except.noConfusion h
  all_goals
    injection h with h2
    subst h2
    rfl

theorem jget_error {v dflt : JVal} {k : String} {e : PyErr}
    (h : jget v k dflt = .error e) : e.isIndexErrorB = false := by
  cases v
  case jobj l => exact Except.noConfusion h
  all_goals
    injection h with h2
    subst h2
    rfl

theorem pyIter_error {v : JVal} {e : PyErr} (h : pyIter v = .error e) :
    e.isIndexErrorB = false := by
  cases v <;> first
    | exact Except.noConfusion h
    | (injection h with h2; subst h2; rfl)

theorem mergeProps_error {s : Dict} {p : JVal} {e : PyErr}
    (h : mergeProps s p = .error e) : e.isIndexErrorB = false := by
  unfold mergeProps at h
  cases hl : dlookup s "properties" <;> rw [hl] at h
  case none =>
    injection h with h2
    subst h2
    rfl
  case some pv =>
    cases pv <;> cases p <;>
      first
        | exact Except.noConfusion h
        | (injection h with h2; subst h2; rfl)

theorem mergeItems_error : ∀ (items : List JVal) (s : Dict) {e : PyErr},
    mergeItems s items = .error e → e.isIndexErrorB = false := by
  intro items
  induction items with
  | nil =>
    intro s e h
    exact Except.noConfusion h
  | cons i rest ih =>
    intro s e h
    unfold mergeItems at h
    rcases bind_error_cases h with h1 | ⟨item, -, h1⟩
    · exact asObj_error h1
    rcases bind_error_cases h1 with h2 | ⟨s2, -, h2⟩
    · exact mergeProps_error h2
    · exact ih s2 h2

theorem fixInner_error {s elem : Dict} {k : String} {e : PyErr}
    (h : fixInner s elem k = .error e) : e.isIndexErrorB = false := by
  unfold fixInner at h
  rcases bind_error_cases h with h1 | ⟨items, -, h1⟩
  · exact pyIter_error h1
  · exact mergeItems_error items s h1

theorem fixPropsMerge_error {s : Dict} {p : JVal} {e : PyErr}
    (h : fixPropsMerge s p = .error e) : e.isIndexErrorB = false := by
  unfold fixPropsMerge at h
  split at h
  · exact mergeProps_error h
  · exact Except.noConfusion h

theorem fixElem_error {s : Dict} {eV : JVal} {e : PyErr}
    (h : fixElem s eV = .error e) : e.isIndexErrorB = false := by
  unfold fixElem at h
  rcases bind_error_cases h with h1 | ⟨elem, -, h1⟩
  · exact asObj_error h1
  rcases bind_error_cases h1 with h2 | ⟨s1, -, h2⟩
  · exact fixPropsMerge_error h2
  rcases bind_error_cases h2 with h3 | ⟨s2, -, h3⟩
  · exact fixInner_error h3
  rcases bind_error_cases h3 with h4 | ⟨s3, -, h4⟩
  · exact fixInner_error h4
  · exact fixInner_error h4

theorem fixElems_error : ∀ (elems : List JVal) (s : Dict) {e : PyErr},
    fixElems s elems = .error e → e.isIndexErrorB = false := by
  intro elems
  induction elems with
  | nil =>
    intro s e h
    exact Except.noConfusion h
  | cons x xs ih =>
    intro s e h
    unfold fixElems at h
    rcases bind_error_cases h with h1 | ⟨s1, -, h1⟩
    · exact fixElem_error h1
    · exact ih s1 h1

theorem fixKey_error {s : Dict} {k : String} {e : PyErr}
    (h : fixKey s k = .error e) : e.isIndexErrorB = false := by
  unfold fixKey at h
  split at h
  · rcases bind_error_cases h with h1 | ⟨elems, -, h1⟩
    · exact pyIter_error h1
    · exact fixElems_error elems _ h1
  · exact Except.noConfusion h

theorem fix_schema_inheritance_error {v : JVal} {e : PyErr}
    (h : fix_schema_inheritance v = .error e) : e.isIndexErrorB = false := by
  unfold fix_schema_inheritance at h
  rcases bind_error_cases h with h1 | ⟨s, -, h1⟩
  · exact asObj_error h1
  rcases bind_error_cases h1 with h2 | ⟨s1, -, h2⟩
  · exact fixKey_error h2
  rcases bind_error_cases h2 with h3 | ⟨s2, -, h3⟩
  · exact fixKey_error h3
  · exact fixKey_error h3

theorem isComplexField_error {v : JVal} {e : PyErr}
    (h : isComplexField v = .error e) : e.isIndexErrorB = false := by
  cases v <;> first
    | exact Except.noConfusion h
    | (injection h with h2; subst h2; rfl)

theorem convFields_error : ∀ (l : List (String × JVal)) (acc : Dict) {e : PyErr},
    convFields acc l = .error e → e.isIndexErrorB = false := by
  intro l
  induction l with
  | nil =>
    intro acc e h
    exact Except.noConfusion h
  | cons p rest ih =>
    intro acc e h
    obtain ⟨n, v⟩ := p
    unfold convFields at h
    rcases bind_error_cases h with h1 | ⟨c, -, h1⟩
    · exact isComplexField_error h1
    · exact ih _ h1

theorem convert_error {v : JVal} {e : PyErr}
    (h : convert_complex_types_to_string v = .error e) : e.isIndexErrorB = false := by
  unfold convert_complex_types_to_string at h
  rcases bind_error_cases h with h1 | ⟨s, -, h1⟩
  · exact asObj_error h1
  rcases bind_error_cases h1 with h2 | ⟨props, -, h2⟩
  · exact asObj_error h2
  rcases bind_error_cases h2 with h3 | ⟨np, -, h3⟩
  · exact convFields_error props props h3
  · exact Except.noConfusion h3

theorem flattenNode_error {v : JVal} {e : PyErr}
    (h : flattenNode v = .error e) : e.isIndexErrorB = false := by
  unfold flattenNode at h
  rcases bind_error_cases h with h1 | ⟨fixed, -, h1⟩
  · exact fix_schema_inheritance_error h1
  · exact convert_error h1

/-- C6: under a resolved candidate with a wellformed properties, value and
allOf shape, get_schema flattens the value.items node when it is truthy,
otherwise the head of the allOf list, and its result is an
IndexError-class error exactly when the items node is falsy and the allOf
list empty. -/
theorem claim6_theorem (src : Source) (context : String) (ref P V : Dict)
    (itemsV : JVal) (allOfL : List JVal)
    (href : get_ref src context = .ok ref)
    (hP : dgetD ref "properties" (.jobj []) = .jobj P)
    (hV : dgetD P "value" (.jobj []) = .jobj V)
    (hI : dgetD V "items" (.jobj []) = itemsV)
    (hA : dgetD ref "allOf" (.jarr []) = .jarr allOfL) :
    (jtruthy itemsV = true → get_schema src context = flattenNode itemsV) ∧
    (jtruthy itemsV = false → ∀ x xs, allOfL = x :: xs →
      get_schema src context = flattenNode x) ∧
    ((∃ m, get_schema src context = .error (.indexError m)) ↔
      (jtruthy itemsV = false ∧ allOfL = [])) := by
  have hsel : selectNode ref =
      if jtruthy itemsV then .ok itemsV else pyIndexZero (.jarr allOfL) := by
    unfold selectNode
    rw [hP, show jget (JVal.jobj P) "value" (.jobj []) =
      .ok (dgetD P "value" (.jobj [])) from rfl, except_bind_ok, hV,
      show jget (JVal.jobj V) "items" (.jobj []) =
      .ok (dgetD V "items" (.jobj [])) from rfl, except_bind_ok, hI, hA]
  have hgs : get_schema src context = (selectNode ref >>= flattenNode) := by
    unfold get_schema
    rw [href, except_bind_ok]
  refine ⟨?_, ?_, ?_⟩
  · intro ht
    rw [hgs, hsel, if_pos ht, except_bind_ok]
  · intro hf x xs hx
    rw [hgs, hsel, if_neg (by simp [hf]), hx,
      show pyIndexZero (JVal.jarr (x :: xs)) = .ok x from rfl, except_bind_ok]
  · constructor
    · rintro ⟨m, hm⟩
      by_cases ht : jtruthy itemsV
      · rw [hgs, hsel, if_pos ht, except_bind_ok] at hm
        have := flattenNode_error hm
        simp [PyErr.isIndexErrorB] at this
      · cases hx : allOfL with
        | nil => exact ⟨by simpa using ht, rfl⟩
        | cons x xs =>
          rw [hgs, hsel, if_neg ht, hx,
            show pyIndexZero (JVal.jarr (x :: xs)) = .ok x from rfl,
            except_bind_ok] at hm
          have := flattenNode_error hm
          simp [PyErr.isIndexErrorB] at this
    · rintro ⟨hf, hnil⟩
      refine ⟨"list index out of range", ?_⟩
      rw [hgs, hsel, if_neg (by simp [hf]), hnil]
      rfl

/-- A minimal resolvable document for the C6 witness: the candidate
pattern is empty (matching everything) and the items node is a nonempty
object, so the value.items branch is selected. -/
def c6Doc : Dict :=
  [("anyOf", .jarr [.jobj
    [("properties", .jobj
      [("@odata.context", .jobj [("pattern", .jstr "")]),
       ("value", .jobj [("items", .jobj [("properties", .jobj [])])])])]])]

def c6Src : Source := fun v => if v = "v1" then .doc c6Doc else .missing

/-- C6 witness: on the concrete document the items branch is taken and no
IndexError occurs. -/
theorem claim6_witness :
    jtruthy (JVal.jobj [("properties", JVal.jobj [])]) = true ∧
    get_schema c6Src "h://x/v1/y#z" =
      flattenNode (.jobj [("properties", .jobj [])]) :=
  ⟨rfl, (claim6_theorem c6Src "h://x/v1/y#z"
    (jobjFields (JVal.jobj
      [("properties", .jobj
        [("@odata.context", .jobj [("pattern", .jstr "")]),
         ("value", .jobj [("items", .jobj [("properties", .jobj [])])])])]))
    [("@odata.context", .jobj [("pattern", .jstr "")]),
     ("value", .jobj [("items", .jobj [("properties", .jobj [])])])]
    [("items", .jobj [("properties", .jobj [])])]
    (.jobj [("properties", .jobj [])]) []
    rfl rfl rfl rfl rfl).1 rfl⟩

/-! ## C10 — KeyError of Pass A on nodes without a properties key -/

/-- An array value all of whose elements satisfy p. -/
def isArrAll (v : JVal) (p : JVal → Bool) : Bool :=
  match v with
  | .jarr xs => xs.all p
  | _ => false

/-- Wellformedness of one nested composition schema for the C10
analysis: an object whose inner composition values are arrays of
objects (the shape the data model prescribes). -/
def elemWF2 (e : JVal) : Bool :=
  isObjB e &&
    (ofKeys.all fun k => isArrAll (dgetD (jobjFields e) k (.jarr [])) isObjB)

/-- Whether processing one nested schema attempts any merge: truthy
properties, or some inner composition key with at least one entry. -/
def triggerB (e : JVal) : Bool :=
  jtruthy (dgetD (jobjFields e) "properties" (.jobj [])) ||
    (ofKeys.any fun k => !(jarrItems (dgetD (jobjFields e) k (.jarr []))).isEmpty)

theorem isArrAll_elim {v : JVal} {p : JVal → Bool} (h : isArrAll v p = true) :
    ∃ xs, v = .jarr xs ∧ xs.all p = true := by
  cases v <;> simp [isArrAll] at h
  case jarr xs => exact ⟨xs, rfl, by simpa using h⟩

theorem mergeProps_noProps {s : Dict} (p : JVal)
    (h : dlookup s "properties" = none) :
    mergeProps s p = .error (.keyError "properties") := by
  unfold mergeProps
  rw [h]

theorem mergeItems_noProps_cons {s : Dict} {i : JVal} (items : List JVal)
    (hnp : dlookup s "properties" = none) (hi : isObjB i = true) :
    mergeItems s (i :: items) = .error (.keyError "properties") := by
  obtain ⟨l, rfl⟩ : ∃ l, i = .jobj l := by
    cases i <;> simp [isObjB] at hi ⊢
  unfold mergeItems
  rw [show asObj (JVal.jobj l) = .ok l from rfl, except_bind_ok,
    mergeProps_noProps _ hnp, except_bind_err]

theorem fixInner_noProps {s elem : Dict} {k : String} {xs : List JVal}
    (hnp : dlookup s "properties" = none)
    (hv : dgetD elem k (.jarr []) = .jarr xs)
    (hobj : xs.all isObjB = true) :
    fixInner s elem k =
      if xs.isEmpty then .ok s else .error (.keyError "properties") := by
  unfold fixInner
  rw [hv, show pyIter (JVal.jarr xs) = .ok xs from rfl, except_bind_ok]
  cases xs with
  | nil => rfl
  | cons x rest =>
    rw [List.all_cons, Bool.and_eq_true] at hobj
    simp [mergeItems_noProps_cons rest hnp hobj.1]

theorem fixElem_noProps {s : Dict} {eV : JVal}
    (hnp : dlookup s "properties" = none) (hwf : elemWF2 eV = true) :
    fixElem s eV =
      if triggerB eV then .error (.keyError "properties") else .ok s := by
  obtain ⟨l, rfl⟩ : ∃ l, eV = .jobj l := by
    have h2 := hwf
    unfold elemWF2 at h2
    rw [Bool.and_eq_true] at h2
    cases eV <;> simp [isObjB] at h2 ⊢
  unfold elemWF2 at hwf
  rw [Bool.and_eq_true] at hwf
  have hks := hwf.2
  simp only [ofKeys, List.all_cons, List.all_nil, Bool.and_eq_true,
    and_true, jobjFields] at hks
  obtain ⟨hk1, hk2, hk3⟩ := hks
  obtain ⟨xs1, hv1, ho1⟩ := isArrAll_elim hk1
  obtain ⟨xs2, hv2, ho2⟩ := isArrAll_elim hk2
  obtain ⟨xs3, hv3, ho3⟩ := isArrAll_elim hk3
  have htrig : triggerB (.jobj l) =
      (jtruthy (dgetD l "properties" (.jobj [])) ||
        (!xs1.isEmpty || (!xs2.isEmpty || !xs3.isEmpty))) := by
    simp [triggerB, ofKeys, jobjFields, hv1, hv2, hv3, jarrItems]
  unfold fixElem
  rw [show asObj (JVal.jobj l) = .ok l from rfl, except_bind_ok]
  by_cases hp : jtruthy (dgetD l "properties" (.jobj []))
  · rw [show fixPropsMerge s (dgetD l "properties" (.jobj [])) =
        mergeProps s (dgetD l "properties" (.jobj [])) from by
      unfold fixPropsMerge
      rw [if_pos hp]]
    rw [mergeProps_noProps _ hnp, except_bind_err, htrig, hp]
    rfl
  · rw [show fixPropsMerge s (dgetD l "properties" (.jobj [])) = .ok s from by
      unfold fixPropsMerge
      rw [if_neg hp]]
    rw [except_bind_ok, fixInner_noProps hnp hv1 ho1]
    cases he1 : xs1.isEmpty
    · rw [if_neg (by simp [he1]), except_bind_err, htrig, he1]
      simp [hp]
    · rw [if_pos rfl, except_bind_ok, fixInner_noProps hnp hv2 ho2]
      cases he2 : xs2.isEmpty
      · rw [if_neg (by simp [he2]), except_bind_err, htrig, he1, he2]
        simp [hp]
      · rw [if_pos rfl, except_bind_ok, fixInner_noProps hnp hv3 ho3]
        cases he3 : xs3.isEmpty
        · rw [if_neg (by simp [he3]), htrig, he1, he2, he3]
          simp [hp]
        · rw [if_pos rfl, htrig, he1, he2, he3]
          simp [hp]

theorem fixElems_noProps {s : Dict} (hnp : dlookup s "properties" = none) :
    ∀ {elems : List JVal}, elems.all elemWF2 = true →
      fixElems s elems =
        if elems.any triggerB then .error (.keyError "properties") else .ok s := by
  intro elems
  induction elems with
  | nil =>
    intro _
    rfl
  | cons e es ih =>
    intro hwf
    rw [List.all_cons, Bool.and_eq_true] at hwf
    show (fixElem s e >>= _) = _
    rw [fixElem_noProps hnp hwf.1]
    cases ht : triggerB e
    · rw [if_neg (by simp [ht]), except_bind_ok, ih hwf.2, List.any_cons, ht]
      simp
    · rw [if_pos rfl, except_bind_err, List.any_cons, ht]
      simp

theorem fixKey_noProps {s : Dict} {k : String} {xs : List JVal}
    (hk : ¬k = "properties")
    (hnp : dlookup s "properties" = none)
    (hv : dgetD s k (.jarr []) = .jarr xs)
    (hwf : xs.all elemWF2 = true) :
    fixKey s k =
      if xs.any triggerB then .error (.keyError "properties")
      else .ok (derase s k) := by
  have hnp2 : dlookup (derase s k) "properties" = none := by
    rw [dlookup_derase_ne s hk]
    exact hnp
  unfold fixKey
  rw [hv]
  cases xs with
  | nil => rfl
  | cons x rest =>
    rw [if_pos (show jtruthy (JVal.jarr (x :: rest)) = true from rfl),
      show pyIter (JVal.jarr (x :: rest)) = .ok (x :: rest) from rfl,
      except_bind_ok, fixElems_noProps hnp2 hwf]

/-- The trigger hypothesis of C10: some composition key of the node has a
first entry that attempts a merge. -/
def firstEntryTriggers (s : Dict) : Bool :=
  ofKeys.any fun k =>
    match jarrItems (dgetD s k (.jarr [])) with
    | e :: _ => triggerB e
    | [] => false

theorem fix_noProps_main (s : Dict)
    (hnp : dlookup s "properties" = none)
    (hall : (ofKeys.all fun k => isArrAll (dgetD s k (.jarr [])) elemWF2) = true)
    (hany : firstEntryTriggers s = true) :
    fix_schema_inheritance (.jobj s) = .error (.keyError "properties") := by
  simp only [ofKeys, List.all_cons, List.all_nil, Bool.and_eq_true, and_true] at hall
  obtain ⟨hk1, hk2, hk3⟩ := hall
  obtain ⟨xs1, hv1, ho1⟩ := isArrAll_elim hk1
  obtain ⟨xs2, hv2, ho2⟩ := isArrAll_elim hk2
  obtain ⟨xs3, hv3, ho3⟩ := isArrAll_elim hk3
  have hdisj : xs1.any triggerB = true ∨ xs2.any triggerB = true ∨
      xs3.any triggerB = true := by
    unfold firstEntryTriggers at hany
    simp only [ofKeys, List.any_cons, List.any_nil, Bool.or_eq_true,
      Bool.false_eq_true, or_false, hv1, hv2, hv3, jarrItems] at hany
    rcases hany with h | h | h
    · left
      cases xs1 with
      | nil => exact absurd h (by simp)
      | cons x r =>
        have h2 : triggerB x = true := h
        rw [List.any_cons, h2]
        rfl
    · right
      left
      cases xs2 with
      | nil => exact absurd h (by simp)
      | cons x r =>
        have h2 : triggerB x = true := h
        rw [List.any_cons, h2]
        rfl
    · right
      right
      cases xs3 with
      | nil => exact absurd h (by simp)
      | cons x r =>
        have h2 : triggerB x = true := h
        rw [List.any_cons, h2]
        rfl
  unfold fix_schema_inheritance
  rw [show asObj (JVal.jobj s) = .ok s from rfl, except_bind_ok]
  rw [fixKey_noProps (by decide) hnp hv1 ho1]
  cases ht1 : xs1.any triggerB
  · rw [if_neg (by simp [ht1]), except_bind_ok]
    have hnp1 : dlookup (derase s "allOf") "properties" = none := by
      rw [dlookup_derase_ne s (by decide)]
      exact hnp
    have hv2b : dgetD (derase s "allOf") "anyOf" (.jarr []) = .jarr xs2 := by
      rw [dgetD_derase_ne s _ (by decide)]
      exact hv2
    rw [fixKey_noProps (by decide) hnp1 hv2b ho2]
    cases ht2 : xs2.any triggerB
    · rw [if_neg (by simp [ht2]), except_bind_ok]
      have hnp2 : dlookup (derase (derase s "allOf") "anyOf") "properties" = none := by
        rw [dlookup_derase_ne _ (by decide)]
        exact hnp1
      have hv3b : dgetD (derase (derase s "allOf") "anyOf") "oneOf" (.jarr []) =
          .jarr xs3 := by
        rw [dgetD_derase_ne _ _ (by decide), dgetD_derase_ne s _ (by decide)]
        exact hv3
      rw [fixKey_noProps (by decide) hnp2 hv3b ho3]
      rcases hdisj with h | h | h
      · rw [ht1] at h
        exact Bool.noConfusion h
      · rw [ht2] at h
        exact Bool.noConfusion h
      · rw [if_pos h]
    · rw [if_pos rfl, except_bind_err]
  · rw [if_pos rfl, except_bind_err]

/-- C10: Pass A raises KeyError on every data-model node that has no
properties key but carries a composition key whose first entry attempts a
merge (nonempty properties, or an inner composition key with at least one
entry); consequently get_schema fails with that KeyError whenever the
selected node of the matched candidate has this shape. -/
theorem claim10_theorem :
    (∀ s : Dict, dlookup s "properties" = none →
      (ofKeys.all fun k => isArrAll (dgetD s k (.jarr [])) elemWF2) = true →
      firstEntryTriggers s = true →
      fix_schema_inheritance (.jobj s) = .error (.keyError "properties")) ∧
    (∀ (src : Source) (context : String) (ref s : Dict),
      get_ref src context = .ok ref → selectNode ref = .ok (.jobj s) →
      dlookup s "properties" = none →
      (ofKeys.all fun k => isArrAll (dgetD s k (.jarr [])) elemWF2) = true →
      firstEntryTriggers s = true →
      get_schema src context = .error (.keyError "properties")) := by
  refine ⟨fix_noProps_main, ?_⟩
  intro src context ref s href hsel hnp hall hany
  unfold get_schema
  rw [href, except_bind_ok, hsel, except_bind_ok]
  unfold flattenNode
  rw [fix_noProps_main s hnp hall hany, except_bind_err]

/-- C10 witness: the items node of the C1 scenario document has no
properties key and a triggering allOf entry; Pass A and hence get_schema
raise KeyError on it. -/
theorem claim10_witness :
    fix_schema_inheritance c1Items = .error (.keyError "properties") ∧
    get_schema c1Src "https://host/v1.0/$metadata#users" =
      .error (.keyError "properties") :=
  ⟨(claim10_theorem).1 (jobjFields c1Items) rfl rfl rfl,
   (claim10_theorem).2 c1Src "https://host/v1.0/$metadata#users"
     (jobjFields c1Cand) (jobjFields c1Items) rfl rfl rfl rfl rfl⟩

/-! ## C3 — the two-level composition merge of Pass A -/

/-- The properties dict contributed by one inner entry of a nested
composition schema. -/
def itemProps (i : JVal) : Dict :=
  jobjFields (dgetD (jobjFields i) "properties" (.jobj []))

/-- The ordered list of properties dicts that Pass A merges for one
nested composition schema: its own properties when truthy, then the
properties of every entry of each of its composition keys, in key and
document order.  Composition nested one level further (three levels from
the root) contributes nothing. -/
def elemContrib (eV : JVal) : List Dict :=
  (if jtruthy (dgetD (jobjFields eV) "properties" (.jobj []))
   then [jobjFields (dgetD (jobjFields eV) "properties" (.jobj []))] else []) ++
    ofKeys.flatMap fun k =>
      (jarrItems (dgetD (jobjFields eV) k (.jarr []))).map itemProps

/-- All merge contributions of a node, over the three composition keys in
processing order. -/
def schemaContribs (schema : Dict) : List Dict :=
  ofKeys.flatMap fun k =>
    (jarrItems (dgetD schema k (.jarr []))).flatMap elemContrib

/-- Spec-side description of Pass A: the three composition keys are
consumed from the node; the contributions are folded over the original
properties with the later dict overwriting earlier keys. -/
def fixSpec (schema : Dict) : Dict :=
  dset (derase (derase (derase schema "allOf") "anyOf") "oneOf") "properties"
    (.jobj ((schemaContribs schema).foldl dunion
      (jobjFields (dgetD schema "properties" (.jobj [])))))

/-- Wellformedness of one inner entry for the C3 analysis: an object
whose properties value (defaulted) is an object. -/
def itemWF (i : JVal) : Bool :=
  isObjB i && isObjB (dgetD (jobjFields i) "properties" (.jobj []))

/-- Wellformedness of one nested composition schema: an object with
object properties whose composition values are arrays of wellformed
entries. -/
def elemWF (e : JVal) : Bool :=
  isObjB e && isObjB (dgetD (jobjFields e) "properties" (.jobj [])) &&
    (ofKeys.all fun k => isArrAll (dgetD (jobjFields e) k (.jarr [])) itemWF)

theorem dgetD_of_lookup {d : Dict} {k : String} {v : JVal} (dflt : JVal)
    (h : dlookup d k = some v) : dgetD d k dflt = v := by
  simp [dgetD, h]

theorem dlookup_derase_self (d : Dict) (k : String) :
    dlookup (derase d k) k = none := by
  induction d with
  | nil => simp [derase, dlookup]
  | cons kv rest ih =>
    obtain ⟨k1, v1⟩ := kv
    by_cases h : k1 = k <;> simp [derase, dlookup, h, ih]

theorem mergeProps_ok {s a : Dict} (b : Dict)
    (h : dlookup s "properties" = some (.jobj a)) :
    mergeProps s (.jobj b) = .ok (dset s "properties" (.jobj (dunion a b))) := by
  unfold mergeProps
  rw [h]

theorem itemWF_elim {i : JVal} (h : itemWF i = true) :
    ∃ li bi, i = .jobj li ∧ dgetD li "properties" (.jobj []) = .jobj bi := by
  unfold itemWF at h
  rw [Bool.and_eq_true] at h
  obtain ⟨h1, h2⟩ := h
  obtain ⟨li, rfl⟩ : ∃ li, i = .jobj li := by
    cases i <;> simp [isObjB] at h1 ⊢
  refine ⟨li, ?_⟩
  simp only [jobjFields] at h2
  cases hb : dgetD li "properties" (.jobj []) <;> rw [hb] at h2 <;>
    simp [isObjB] at h2
  case jobj bi => exact ⟨bi, rfl, rfl⟩

theorem itemProps_eq {li : List (String × JVal)} {bi : Dict}
    (h : dgetD li "properties" (.jobj []) = .jobj bi) :
    itemProps (.jobj li) = bi := by
  simp [itemProps, jobjFields, h]

theorem mergeItems_char : ∀ (items : List JVal) (s a : Dict),
    items.all itemWF = true →
    dlookup s "properties" = some (.jobj a) →
    mergeItems s items =
      .ok (dset s "properties" (.jobj ((items.map itemProps).foldl dunion a))) := by
  intro items
  induction items with
  | nil =>
    intro s a _ h
    show Except.ok s = _
    rw [List.map_nil, List.foldl_nil, dset_self s h]
  | cons i rest ih =>
    intro s a hwf h
    rw [List.all_cons, Bool.and_eq_true] at hwf
    obtain ⟨li, bi, rfl, hbi⟩ := itemWF_elim hwf.1
    show (asObj (.jobj li) >>= _) = _
    rw [show asObj (JVal.jobj li) = .ok li from rfl, except_bind_ok, hbi,
      mergeProps_ok bi h, except_bind_ok,
      ih _ (dunion a bi) hwf.2 (dlookup_dset_self s "properties" _),
      dset_dset_same, List.map_cons, itemProps_eq hbi, List.foldl_cons]

theorem fixInner_char {s a elem : Dict} {k : String} {xs : List JVal}
    (hv : dgetD elem k (.jarr []) = .jarr xs)
    (hwf : xs.all itemWF = true)
    (h : dlookup s "properties" = some (.jobj a)) :
    fixInner s elem k =
      .ok (dset s "properties" (.jobj ((xs.map itemProps).foldl dunion a))) := by
  unfold fixInner
  rw [hv, show pyIter (JVal.jarr xs) = .ok xs from rfl, except_bind_ok,
    mergeItems_char xs s a hwf h]

theorem elemWF_elim {e : JVal} (h : elemWF e = true) :
    ∃ l p xs1 xs2 xs3, e = .jobj l ∧
      dgetD l "properties" (.jobj []) = .jobj p ∧
      dgetD l "allOf" (.jarr []) = .jarr xs1 ∧ xs1.all itemWF = true ∧
      dgetD l "anyOf" (.jarr []) = .jarr xs2 ∧ xs2.all itemWF = true ∧
      dgetD l "oneOf" (.jarr []) = .jarr xs3 ∧ xs3.all itemWF = true := by
  unfold elemWF at h
  rw [Bool.and_eq_true, Bool.and_eq_true] at h
  obtain ⟨⟨h1, h2⟩, h3⟩ := h
  obtain ⟨l, rfl⟩ : ∃ l, e = .jobj l := by
    cases e <;> simp [isObjB] at h1 ⊢
  simp only [jobjFields] at h2 h3
  obtain ⟨p, hp⟩ : ∃ p, dgetD l "properties" (.jobj []) = .jobj p := by
    cases hb : dgetD l "properties" (.jobj []) <;> rw [hb] at h2 <;>
      simp [isObjB] at h2 ⊢
  simp only [ofKeys, List.all_cons, List.all_nil, Bool.and_eq_true, and_true] at h3
  obtain ⟨hk1, hk2, hk3⟩ := h3
  obtain ⟨xs1, hv1, ho1⟩ := isArrAll_elim hk1
  obtain ⟨xs2, hv2, ho2⟩ := isArrAll_elim hk2
  obtain ⟨xs3, hv3, ho3⟩ := isArrAll_elim hk3
  exact ⟨l, p, xs1, xs2, xs3, rfl, hp, hv1, ho1, hv2, ho2, hv3, ho3⟩

theorem fixElem_char {s a : Dict} {e : JVal}
    (hwf : elemWF e = true)
    (h : dlookup s "properties" = some (.jobj a)) :
    fixElem s e =
      .ok (dset s "properties" (.jobj ((elemContrib e).foldl dunion a))) := by
  obtain ⟨l, p, xs1, xs2, xs3, rfl, hp, hv1, ho1, hv2, ho2, hv3, ho3⟩ :=
    elemWF_elim hwf
  have hec : elemContrib (.jobj l) =
      (if jtruthy (.jobj p) then [p] else []) ++
        (xs1.map itemProps ++ (xs2.map itemProps ++ (xs3.map itemProps ++ []))) := by
    simp [elemContrib, jobjFields, hp, hv1, hv2, hv3, ofKeys, jarrItems]
  have hfpm : fixPropsMerge s (.jobj p) =
      .ok (dset s "properties"
        (.jobj ((if jtruthy (.jobj p) then [p] else []).foldl dunion a))) := by
    unfold fixPropsMerge
    by_cases ht : jtruthy (.jobj p)
    · rw [if_pos ht, if_pos ht, List.foldl_cons, List.foldl_nil, mergeProps_ok p h]
    · rw [if_neg ht, if_neg ht, List.foldl_nil, dset_self s h]
  show (asObj (.jobj l) >>= _) = _
  rw [show asObj (JVal.jobj l) = .ok l from rfl, except_bind_ok, hp, hfpm,
    except_bind_ok,
    fixInner_char hv1 ho1 (dlookup_dset_self s "properties" _), dset_dset_same,
    except_bind_ok,
    fixInner_char hv2 ho2 (dlookup_dset_self s "properties" _), dset_dset_same,
    except_bind_ok,
    fixInner_char hv3 ho3 (dlookup_dset_self s "properties" _), dset_dset_same,
    hec]
  rw [List.foldl_append, List.foldl_append, List.foldl_append, List.foldl_append,
    List.foldl_nil]

theorem fixElems_char : ∀ (elems : List JVal) (s a : Dict),
    elems.all elemWF = true →
    dlookup s "properties" = some (.jobj a) →
    fixElems s elems =
      .ok (dset s "properties"
        (.jobj ((elems.flatMap elemContrib).foldl dunion a))) := by
  intro elems
  induction elems with
  | nil =>
    intro s a _ h
    show Except.ok s = _
    rw [List.flatMap_nil, List.foldl_nil, dset_self s h]
  | cons e rest ih =>
    intro s a hwf h
    rw [List.all_cons, Bool.and_eq_true] at hwf
    show (fixElem s e >>= _) = _
    rw [fixElem_char hwf.1 h, except_bind_ok,
      ih _ _ hwf.2 (dlookup_dset_self s "properties" _), dset_dset_same,
      List.flatMap_cons, List.foldl_append]

theorem fixKey_char {s a : Dict} {k : String} {xs : List JVal}
    (hk : ¬k = "properties")
    (h : dlookup s "properties" = some (.jobj a))
    (hv : dgetD s k (.jarr []) = .jarr xs)
    (hwf : xs.all elemWF = true) :
    fixKey s k =
      .ok (dset (derase s k) "properties"
        (.jobj ((xs.flatMap elemContrib).foldl dunion a))) := by
  have h2 : dlookup (derase s k) "properties" = some (.jobj a) := by
    rw [dlookup_derase_ne s hk]
    exact h
  unfold fixKey
  rw [hv]
  cases xs with
  | nil =>
    rw [if_neg (by simp [jtruthy]), List.flatMap_nil, List.foldl_nil,
      dset_self _ h2]
  | cons x rest =>
    rw [if_pos (show jtruthy (JVal.jarr (x :: rest)) = true from rfl),
      show pyIter (JVal.jarr (x :: rest)) = .ok (x :: rest) from rfl,
      except_bind_ok, fixElems_char (x :: rest) _ a hwf h2]

theorem fix_schema_inheritance_char (s a : Dict)
    (ha : dlookup s "properties" = some (.jobj a))
    (hwf : (ofKeys.all fun k => isArrAll (dgetD s k (.jarr [])) elemWF) = true) :
    fix_schema_inheritance (.jobj s) = .ok (fixSpec s) := by
  simp only [ofKeys, List.all_cons, List.all_nil, Bool.and_eq_true, and_true] at hwf
  obtain ⟨hk1, hk2, hk3⟩ := hwf
  obtain ⟨xs1, hv1, ho1⟩ := isArrAll_elim hk1
  obtain ⟨xs2, hv2, ho2⟩ := isArrAll_elim hk2
  obtain ⟨xs3, hv3, ho3⟩ := isArrAll_elim hk3
  have hm1 : dlookup (dset (derase s "allOf") "properties"
      (.jobj ((xs1.flatMap elemContrib).foldl dunion a))) "properties" =
      some (.jobj ((xs1.flatMap elemContrib).foldl dunion a)) :=
    dlookup_dset_self _ _ _
  have hv2b : dgetD (dset (derase s "allOf") "properties"
      (.jobj ((xs1.flatMap elemContrib).foldl dunion a))) "anyOf" (.jarr []) =
      .jarr xs2 := by
    rw [dgetD_dset_ne _ _ _ (by decide), dgetD_derase_ne s _ (by decide)]
    exact hv2
  unfold fix_schema_inheritance
  rw [show asObj (JVal.jobj s) = .ok s from rfl, except_bind_ok,
    fixKey_char (by decide) ha hv1 ho1, except_bind_ok,
    fixKey_char (by decide) hm1 hv2b ho2, except_bind_ok]
  rw [derase_dset_ne (derase s "allOf") _ (by decide), dset_dset_same]
  have hm2 : dlookup (dset (derase (derase s "allOf") "anyOf") "properties"
      (.jobj ((xs2.flatMap elemContrib).foldl dunion
        ((xs1.flatMap elemContrib).foldl dunion a)))) "properties" =
      some (.jobj ((xs2.flatMap elemContrib).foldl dunion
        ((xs1.flatMap elemContrib).foldl dunion a))) :=
    dlookup_dset_self _ _ _
  have hv3b : dgetD (dset (derase (derase s "allOf") "anyOf") "properties"
      (.jobj ((xs2.flatMap elemContrib).foldl dunion
        ((xs1.flatMap elemContrib).foldl dunion a)))) "oneOf" (.jarr []) =
      .jarr xs3 := by
    rw [dgetD_dset_ne _ _ _ (by decide), dgetD_derase_ne _ _ (by decide),
      dgetD_derase_ne s _ (by decide)]
    exact hv3
  rw [fixKey_char (by decide) hm2 hv3b ho3]
  rw [derase_dset_ne (derase (derase s "allOf") "anyOf") _ (by decide),
    dset_dset_same]
  have hsc : schemaContribs s =
      xs1.flatMap elemContrib ++
        (xs2.flatMap elemContrib ++ (xs3.flatMap elemContrib ++ [])) := by
    simp [schemaContribs, ofKeys, hv1, hv2, hv3, jarrItems]
  unfold fixSpec
  rw [hsc, dgetD_of_lookup (.jobj []) ha]
  rw [List.foldl_append, List.foldl_append, List.foldl_append, List.foldl_nil]
  rfl

/-- C3: under the data-model shape (properties present as an object, each
composition key an array of wellformed nested schemas), Pass A returns
exactly the spec-side two-level flatten: the three composition keys are
consumed, the properties of each nested schema and of each entry of its
own composition keys are folded over the properties of the node in
processing order with later merges overwriting earlier keys, and
composition three or more levels deep contributes nothing (fixSpec reads
nothing deeper). -/
theorem claim3_theorem (s a : Dict)
    (ha : dlookup s "properties" = some (.jobj a))
    (hwf : (ofKeys.all fun k => isArrAll (dgetD s k (.jarr [])) elemWF) = true) :
    fix_schema_inheritance (.jobj s) = .ok (fixSpec s) ∧
    dlookup (fixSpec s) "allOf" = none ∧
    dlookup (fixSpec s) "anyOf" = none ∧
    dlookup (fixSpec s) "oneOf" = none ∧
    dlookup (fixSpec s) "properties" =
      some (.jobj ((schemaContribs s).foldl dunion a)) := by
  refine ⟨fix_schema_inheritance_char s a ha hwf, ?_, ?_, ?_, ?_⟩
  · unfold fixSpec
    rw [dlookup_dset_ne _ _ (by decide), dlookup_derase_ne _ (by decide),
      dlookup_derase_ne _ (by decide), dlookup_derase_self]
  · unfold fixSpec
    rw [dlookup_dset_ne _ _ (by decide), dlookup_derase_ne _ (by decide),
      dlookup_derase_self]
  · unfold fixSpec
    rw [dlookup_dset_ne _ _ (by decide), dlookup_derase_self]
  · unfold fixSpec
    rw [dlookup_dset_self, dgetD_of_lookup (.jobj []) ha]
    rfl

/-- A concrete node for the C3 witness: two-level nested composition with
an overwrite of the key y, and a third-level composition entry (inside
i1) that must not contribute. -/
def c3Node : Dict :=
  [("properties", .jobj [("x", .jstr "keep"), ("y", .jstr "old")]),
   ("allOf", .jarr
     [.jobj [("properties", .jobj [("y", .jstr "mid")]),
             ("anyOf", .jarr
               [.jobj [("properties", .jobj [("z", .jstr "deep")]),
                       ("allOf", .jarr
                         [.jobj [("properties", .jobj
                           [("w", .jstr "too-deep")])]])]])]]),
   ("oneOf", .jarr [.jobj [("properties", .jobj [("y", .jstr "new")])]])]

/-- C3 witness: the characterization applied to the concrete node; the
final conjunct, proved by computation, shows the merged map with the
later oneOf entry winning for y, the level-two z merged, and the
level-three w absent. -/
theorem claim3_witness :
    fix_schema_inheritance (.jobj c3Node) = .ok (fixSpec c3Node) ∧
    fixSpec c3Node =
      [("properties", .jobj
        [("x", .jstr "keep"), ("y", .jstr "new"), ("z", .jstr "deep")])] :=
  ⟨(claim3_theorem c3Node [("x", .jstr "keep"), ("y", .jstr "old")] rfl
      (by decide)).1,
   rfl⟩

end TapMsGraph
